import Mathlib

/-!
Verification of the streaming Base64 and Quoted-Printable decoders
(`Base64Decoder`, `QuotedPrintableDecoder` in `decoders.py`).

Bytes are modelled as `Nat` (values < 256 where it matters), byte strings as
`List Nat`.  The downstream sink is modelled as the list of byte strings it
has received through `write` calls (field `underlying`).  A raised
`DecodeError` is modelled as `Except.error st` where `st` is the state of the
decoder object at the moment the exception propagates; the Base64 decoder
raises from `base64.b64decode` before mutating `self.cache` or calling
`self.underlying.write`, so the carried state is the pre-call state.
-/

/-- Lookup table of `binascii.a2b_base64` (`table_a2b_base64`): standard
Base64 alphabet positions, `none` for every byte outside the alphabet
(including the pad byte 61, which the loop checks before the table). -/
def b64table (c : Nat) : Option Nat :=
  if 65 ≤ c ∧ c ≤ 90 then some (c - 65)
  else if 97 ≤ c ∧ c ≤ 122 then some (c - 97 + 26)
  else if 48 ≤ c ∧ c ≤ 57 then some (c - 48 + 52)
  else if c = 43 then some 62
  else if c = 47 then some 63
  else none

/-- Main loop of `binascii.a2b_base64` in non-strict mode (the mode used by
`base64.b64decode(val)`): arguments are the remaining input, `quad_pos`,
`leftchar` and `pads`.  Bytes outside the alphabet are discarded; a pad byte
at `quad_pos ≥ 2` that completes a quad ends decoding successfully; at end of
input a nonempty final quad is an error (`none`, i.e. `binascii.Error`,
turned into `DecodeError` by the caller). -/
def a2b_base64_loop : List Nat → Nat → Nat → Nat → Option (List Nat)
  | [], quadPos, _, _ => if quadPos = 0 then some [] else none
  | c :: rest, quadPos, leftchar, pads =>
    if c = 61 then
      if 2 ≤ quadPos then
        if 4 ≤ quadPos + (pads + 1) then some []
        else a2b_base64_loop rest quadPos leftchar (pads + 1)
      else a2b_base64_loop rest quadPos leftchar pads
    else
      match b64table c with
      | none => a2b_base64_loop rest quadPos leftchar pads
      | some v =>
        match quadPos with
        | 0 => a2b_base64_loop rest 1 v 0
        | 1 => (a2b_base64_loop rest 2 (v % 16) 0).map (fun d => (leftchar * 4 + v / 16) :: d)
        | 2 => (a2b_base64_loop rest 3 (v % 4) 0).map (fun d => (leftchar * 16 + v / 4) :: d)
        | _ => (a2b_base64_loop rest 0 0 0).map (fun d => (leftchar * 64 + v) :: d)

/-- Model of `base64.b64decode` with default arguments (non-strict). -/
def b64decode (data : List Nat) : Option (List Nat) :=
  a2b_base64_loop data 0 0 0

/-- State of a `Base64Decoder` object: the `cache` bytearray and the sink
`underlying`, modelled as the list of byte strings written to it so far. -/
structure Base64Decoder where
  cache : List Nat
  underlying : List (List Nat)

/-- Freshly constructed decoder (`__init__`): empty cache, sink that has
received nothing yet. -/
def Base64Decoder.fresh : Base64Decoder := ⟨[], []⟩

/-- Model of `Base64Decoder.write` (decoders.py lines 110-153).  `data` is the
cache-prefixed input; `val` its longest prefix whose length is a multiple of
four; on `binascii.Error` the method raises `DecodeError` before any mutation,
so the error carries `self` unchanged.  Otherwise the sink receives the
decoded bytes (when `val` is nonempty), the cache is replaced by
`data[-remaining_len:]` (empty when `remaining_len = 0`) and the combined
length is returned. -/
def Base64Decoder.write (self : Base64Decoder) (input : List Nat) :
    Except Base64Decoder (Base64Decoder × Nat) :=
  let data := if 0 < self.cache.length then self.cache ++ input else input
  let decode_len := data.length / 4 * 4
  let val := List.take decode_len data
  match (if 0 < val.length then (b64decode val).map (fun d => [d]) else some []) with
  | none => .error self
  | some ws =>
      let remaining_len := data.length % 4
      .ok ({ cache := if 0 < remaining_len
                      then List.drop (data.length - remaining_len) data
                      else [],
             underlying := self.underlying ++ ws }, data.length)

/-- Model of `Base64Decoder.finalize` (lines 166-188): raises `DecodeError`
(`none`) when the cache is nonempty; otherwise succeeds and calls
`underlying.finalize()` exactly when the sink has that method
(`hasattr` check), reported by the returned boolean. -/
def Base64Decoder.finalize (self : Base64Decoder) (underlyingHasFinalize : Bool) :
    Option Bool :=
  if 0 < self.cache.length then none else some underlyingHasFinalize

/-- Run a sequence of `write` calls on a Base64 decoder, propagating a raised
`DecodeError`. -/
def b64writeAll (st : Base64Decoder) : List (List Nat) → Except Base64Decoder Base64Decoder
  | [] => .ok st
  | c :: cs =>
    match Base64Decoder.write st c with
    | .error e => .error e
    | .ok (st', _) => b64writeAll st' cs

/-- Hex digit test of `binascii.a2b_qp` (upper case, lower case or digit). -/
def isHexDig (c : Nat) : Bool :=
  (48 ≤ c && c ≤ 57) || (65 ≤ c && c ≤ 70) || (97 ≤ c && c ≤ 102)

/-- Hex digit value, as computed by `binascii.a2b_qp` on digits. -/
def hexval (c : Nat) : Nat :=
  if 48 ≤ c ∧ c ≤ 57 then c - 48
  else if 65 ≤ c ∧ c ≤ 70 then c - 65 + 10
  else c - 97 + 10

/-- After `=\r`, `binascii.a2b_qp` skips everything up to and including the
first line feed (or to the end of input). -/
def dropThroughLF : List Nat → List Nat
  | [] => []
  | c :: rest => if c = 10 then rest else dropThroughLF rest

/-- Main loop of `binascii.a2b_qp` (non-header mode), written with an explicit
fuel argument because the `=\r` case recurses on `dropThroughLF` of the
remaining input, which is not a structural subterm.  Every step consumes at
least one input byte, so fuel equal to the input length (as passed by
`a2b_qp`) is always sufficient and the fuel-exhaustion branch is unreachable. -/
def a2b_qp_go : Nat → List Nat → List Nat
  | _, [] => []
  | 0, _ :: _ => []
  | fuel + 1, c :: rest =>
    if c = 61 then
      match rest with
      | [] => []
      | c2 :: rest2 =>
        if c2 = 10 then a2b_qp_go fuel rest2
        else if c2 = 13 then a2b_qp_go fuel (dropThroughLF (c2 :: rest2))
        else if c2 = 61 then 61 :: a2b_qp_go fuel rest2
        else
          match rest2 with
          | [] => 61 :: a2b_qp_go fuel [c2]
          | c3 :: rest3 =>
            if isHexDig c2 && isHexDig c3 then
              (hexval c2 * 16 + hexval c3) :: a2b_qp_go fuel rest3
            else 61 :: a2b_qp_go fuel (c2 :: c3 :: rest3)
    else c :: a2b_qp_go fuel rest

/-- Model of `binascii.a2b_qp` with default arguments. -/
def a2b_qp (data : List Nat) : List Nat :=
  a2b_qp_go data.length data

/-- State of a `QuotedPrintableDecoder` object. -/
structure QuotedPrintableDecoder where
  cache : List Nat
  underlying : List (List Nat)

/-- Freshly constructed quoted-printable decoder. -/
def QuotedPrintableDecoder.fresh : QuotedPrintableDecoder := ⟨[], []⟩

/-- Model of `QuotedPrintableDecoder.write` (decoders.py lines 235-269).
`data[-2:]` is `List.drop (data.length - 2) data` and `data[:-2]` is
`List.take (data.length - 2) data` (Python slices of a string shorter than
two give the whole string resp. the empty string, which is what truncated
subtraction gives as well).  The test `data[-2:].find(b"=") != -1` is
membership of byte 61 in that two-byte tail. -/
def QuotedPrintableDecoder.write (self : QuotedPrintableDecoder) (input : List Nat) :
    QuotedPrintableDecoder × Nat :=
  let data := if 0 < self.cache.length then self.cache ++ input else input
  if 61 ∈ List.drop (data.length - 2) data then
    let enc := List.take (data.length - 2) data
    let rest := List.drop (data.length - 2) data
    ({ cache := rest,
       underlying := if 0 < enc.length then self.underlying ++ [a2b_qp enc]
                     else self.underlying }, data.length)
  else
    ({ cache := [],
       underlying := if 0 < data.length then self.underlying ++ [a2b_qp data]
                     else self.underlying }, data.length)

/-- Model of `QuotedPrintableDecoder.finalize` (lines 280-295): a nonempty
cache is decoded and written to the sink, then cleared; no error is possible.
(The propagation of `finalize` to the sink touches no decoder state and is
not modelled here.) -/
def QuotedPrintableDecoder.finalize (self : QuotedPrintableDecoder) :
    QuotedPrintableDecoder :=
  if 0 < self.cache.length then
    { cache := [], underlying := self.underlying ++ [a2b_qp self.cache] }
  else self

/-- Run a sequence of `write` calls on a quoted-printable decoder. -/
def qpWriteAll (st : QuotedPrintableDecoder) : List (List Nat) → QuotedPrintableDecoder
  | [] => st
  | c :: cs => qpWriteAll (QuotedPrintableDecoder.write st c).1 cs

/-- A complete quoted-printable decoding session: a sequence of `write` calls
on a fresh decoder followed by `finalize`. -/
def qpRun (cs : List (List Nat)) : QuotedPrintableDecoder :=
  QuotedPrintableDecoder.finalize (qpWriteAll QuotedPrintableDecoder.fresh cs)

/-! Basic helper lemmas about the combined buffer and list slicing. -/

/-- The cache-prepending step of both `write` methods always yields the plain
concatenation of cache and input. -/
theorem cacheAppend_eq (c d : List Nat) :
    (if 0 < c.length then c ++ d else d) = c ++ d := by
  cases c <;> simp

theorem take_append_le {α : Type} (l1 l2 : List α) (n : Nat) (h : n ≤ l1.length) :
    List.take n (l1 ++ l2) = List.take n l1 := by
  induction l1 generalizing n with
  | nil =>
    have : n = 0 := by simpa using h
    simp [this]
  | cons a t ih =>
    cases n with
    | zero => simp
    | succ m =>
      simp only [List.cons_append, List.take_succ_cons]
      rw [ih m (by simpa using h)]

theorem drop_append_le {α : Type} (l1 l2 : List α) (n : Nat) (h : n ≤ l1.length) :
    List.drop n (l1 ++ l2) = List.drop n l1 ++ l2 := by
  induction l1 generalizing n with
  | nil =>
    have : n = 0 := by simpa using h
    simp [this]
  | cons a t ih =>
    cases n with
    | zero => simp
    | succ m =>
      simp only [List.cons_append, List.drop_succ_cons]
      exact ih m (by simpa using h)

/-- The two branches of the cache update in `Base64Decoder.write` both leave
`data[decode_len:]` in the cache. -/
theorem newCache_eq (data : List Nat) :
    (if 0 < data.length % 4
     then List.drop (data.length - data.length % 4) data else []) =
      List.drop (data.length / 4 * 4) data := by
  rcases Nat.eq_zero_or_pos (data.length % 4) with h | h
  · have h4 : data.length / 4 * 4 = data.length := by omega
    simp [h, h4]
  · have h4 : data.length - data.length % 4 = data.length / 4 * 4 := by omega
    simp [h, h4]

/-- Normal form of `Base64Decoder.write`. -/
theorem b64write_eq (self : Base64Decoder) (input : List Nat) :
    Base64Decoder.write self input =
      match (if 0 < (List.take ((self.cache ++ input).length / 4 * 4)
                      (self.cache ++ input)).length
             then (b64decode (List.take ((self.cache ++ input).length / 4 * 4)
                      (self.cache ++ input))).map (fun d => [d])
             else some []) with
      | none => .error self
      | some ws =>
          .ok ({ cache := List.drop ((self.cache ++ input).length / 4 * 4)
                            (self.cache ++ input),
                 underlying := self.underlying ++ ws },
               (self.cache ++ input).length) := by
  simp only [Base64Decoder.write, cacheAppend_eq, newCache_eq]

/-- Facts about any successful `Base64Decoder.write` call: the returned count
is the combined cache-prefixed length, the new cache is the unaligned tail of
the combined buffer, and its length is that length modulo four. -/
theorem b64write_ok (self st' : Base64Decoder) (input : List Nat) (n : Nat)
    (h : Base64Decoder.write self input = .ok (st', n)) :
    n = self.cache.length + input.length ∧
    st'.cache = List.drop ((self.cache ++ input).length / 4 * 4) (self.cache ++ input) ∧
    st'.cache.length = (self.cache.length + input.length) % 4 := by
  rw [b64write_eq] at h
  split at h
  · simp at h
  · simp only [Except.ok.injEq, Prod.mk.injEq] at h
    obtain ⟨h1, h2⟩ := h
    subst h2
    refine ⟨by simp, ?_, ?_⟩
    · rw [← h1]
    · rw [← h1]
      simp only [List.length_drop, List.length_append]
      omega

/-- Combined cache-prefixed buffer of a `Base64Decoder.write` call (the
reassigned `data` of the source). -/
def b64Data (self : Base64Decoder) (input : List Nat) : List Nat :=
  if 0 < self.cache.length then self.cache ++ input else input

/-- Decodable four-byte-aligned part of the combined buffer (the `val` of the
source). -/
def b64Val (self : Base64Decoder) (input : List Nat) : List Nat :=
  List.take ((b64Data self input).length / 4 * 4) (b64Data self input)

/-- C4: after any successful `write`, the Base64 cache holds at most three
bytes and the quoted-printable cache holds at most two bytes; since this is
proved for calls starting from an arbitrary decoder state, the bound is
maintained between all calls. -/
theorem write_cache_bounds (s1 st1 : Base64Decoder) (s2 : QuotedPrintableDecoder)
    (d1 d2 : List Nat) (n1 : Nat)
    (h : Base64Decoder.write s1 d1 = .ok (st1, n1)) :
    st1.cache.length ≤ 3 ∧ (QuotedPrintableDecoder.write s2 d2).1.cache.length ≤ 2 := by
  constructor
  · have := (b64write_ok s1 st1 d1 n1 h).2.2
    omega
  · simp only [QuotedPrintableDecoder.write, cacheAppend_eq]
    split
    · simp only [List.length_drop]
      omega
    · simp

/-- Witness for the cache bound: a three-byte Base64 write and the
quoted-printable write of a lone equals sign. -/
theorem write_cache_bounds_witness :
    (⟨[90, 109, 57], []⟩ : Base64Decoder).cache.length ≤ 3 ∧
    (QuotedPrintableDecoder.write QuotedPrintableDecoder.fresh [61]).1.cache.length ≤ 2 :=
  write_cache_bounds Base64Decoder.fresh ⟨[90, 109, 57], []⟩
    QuotedPrintableDecoder.fresh [90, 109, 57] [61] 3 rfl

/-- C7: every successful `write` returns the length of the previously cached
bytes plus the length of the newly supplied bytes (the quoted-printable
`write` never fails, so no success hypothesis is needed for it). -/
theorem write_returns_combined_length (s1 st1 : Base64Decoder)
    (s2 : QuotedPrintableDecoder) (d1 d2 : List Nat) (n1 : Nat)
    (h : Base64Decoder.write s1 d1 = .ok (st1, n1)) :
    n1 = s1.cache.length + d1.length ∧
    (QuotedPrintableDecoder.write s2 d2).2 = s2.cache.length + d2.length := by
  refine ⟨(b64write_ok s1 st1 d1 n1 h).1, ?_⟩
  simp only [QuotedPrintableDecoder.write, cacheAppend_eq]
  split <;> simp

/-- Witness for the return value property at concrete inputs. -/
theorem write_returns_combined_length_witness :
    (3 : Nat) = (Base64Decoder.fresh).cache.length + ([90, 109, 57] : List Nat).length ∧
    (QuotedPrintableDecoder.write ⟨[61], []⟩ [52, 49]).2 =
      (⟨[61], []⟩ : QuotedPrintableDecoder).cache.length + ([52, 49] : List Nat).length :=
  write_returns_combined_length Base64Decoder.fresh ⟨[90, 109, 57], []⟩
    ⟨[61], []⟩ [90, 109, 57] [52, 49] 3 rfl

/-- C6: a `Base64Decoder.write` call that raises `DecodeError` forwards
nothing to the sink and leaves the cache exactly as it was: the decoder state
carried by the raised error is the pre-call state. -/
theorem base64_write_error_atomic (self e : Base64Decoder) (input : List Nat)
    (h : Base64Decoder.write self input = .error e) :
    e.underlying = self.underlying ∧ e.cache = self.cache := by
  rw [b64write_eq] at h
  split at h
  · injection h with h1
    subst h1
    exact ⟨rfl, rfl⟩
  · simp at h

/-- Witness for error atomicity: a decoder with one cached byte and one
earlier sink write raises on bad input and keeps both. -/
theorem base64_write_error_atomic_witness :
    ∃ e, Base64Decoder.write ⟨[90], [[1]]⟩ [109, 57, 118, 89, 109, 70, 33] = .error e ∧
      e.underlying = [[1]] ∧ e.cache = [90] :=
  ⟨⟨[90], [[1]]⟩, rfl,
    base64_write_error_atomic ⟨[90], [[1]]⟩ ⟨[90], [[1]]⟩ [109, 57, 118, 89, 109, 70, 33] rfl⟩

/-- C8 counterexample: from a fresh decoder, `write(b"Zm9")` forwards nothing,
returns 3 and caches `b"Zm9"` (as the claim says), but the subsequent
`write(b"vYmFy")`, while forwarding `b"foobar"`, returns the combined
cache-prefixed length 8, not 5 as the claim states. -/
theorem base64_split_scenario_cex :
    Base64Decoder.write Base64Decoder.fresh [90, 109, 57]
      = .ok (⟨[90, 109, 57], []⟩, 3) ∧
    Base64Decoder.write ⟨[90, 109, 57], []⟩ [118, 89, 109, 70, 121]
      = .ok (⟨[], [[102, 111, 111, 98, 97, 114]]⟩, 8) ∧
    (8 : Nat) ≠ 5 :=
  ⟨rfl, rfl, by decide⟩

/-- C8 amended: same scenario, with the second call returning 8 (the
cache-prefixed combined length, per the `write` contract). -/
theorem base64_split_scenario :
    Base64Decoder.write Base64Decoder.fresh [90, 109, 57]
      = .ok (⟨[90, 109, 57], []⟩, 3) ∧
    Base64Decoder.write ⟨[90, 109, 57], []⟩ [118, 89, 109, 70, 121]
      = .ok (⟨[], [[102, 111, 111, 98, 97, 114]]⟩, 8) :=
  ⟨rfl, rfl⟩

/-- C9: on a fresh quoted-printable decoder, `write(b"A=\r\n")` then
`write(b"B")` then `finalize()` make the sink receive `b"A"` and then `b"B"`;
no equals sign, carriage return or line feed byte reaches the sink, the
soft line break producing no output byte. -/
theorem qp_soft_line_break_scenario :
    (qpRun [[65, 61, 13, 10], [66]]).underlying = [[65], [66]] ∧
    61 ∉ (qpRun [[65, 61, 13, 10], [66]]).underlying.flatten ∧
    13 ∉ (qpRun [[65, 61, 13, 10], [66]]).underlying.flatten ∧
    10 ∉ (qpRun [[65, 61, 13, 10], [66]]).underlying.flatten :=
  ⟨rfl, by decide, by decide, by decide⟩

/-- C10: after any quoted-printable `write`, the cache is empty or contains an
equals sign; and whenever the two-byte tail of the combined buffer contains no
equals sign, the whole buffer is decoded and forwarded and the cache is
cleared. -/
theorem qp_cache_shape (self : QuotedPrintableDecoder) (input : List Nat) :
    ((QuotedPrintableDecoder.write self input).1.cache = [] ∨
      61 ∈ (QuotedPrintableDecoder.write self input).1.cache) ∧
    (61 ∉ List.drop ((self.cache ++ input).length - 2) (self.cache ++ input) →
      (QuotedPrintableDecoder.write self input).1.cache = [] ∧
      (QuotedPrintableDecoder.write self input).1.underlying.flatten
        = self.underlying.flatten ++ a2b_qp (self.cache ++ input)) := by
  simp only [QuotedPrintableDecoder.write, cacheAppend_eq]
  split
  · rename_i hmem
    exact ⟨Or.inr hmem, fun hn => absurd hmem hn⟩
  · refine ⟨Or.inl rfl, fun _ => ⟨rfl, ?_⟩⟩
    split
    · simp
    · rename_i hlen
      have hnil : self.cache ++ input = [] := by
        cases h : self.cache ++ input with
        | nil => rfl
        | cons a t => rw [h] at hlen; simp at hlen
      simp [hnil, a2b_qp, a2b_qp_go]

/-- Witness for the quoted-printable cache shape property at a concrete
input whose tail holds no equals sign. -/
theorem qp_cache_shape_witness :
    (QuotedPrintableDecoder.write QuotedPrintableDecoder.fresh [65, 66]).1.cache = [] ∧
    (QuotedPrintableDecoder.write QuotedPrintableDecoder.fresh [65, 66]).1.underlying.flatten
      = (QuotedPrintableDecoder.fresh).underlying.flatten ++
          a2b_qp ((QuotedPrintableDecoder.fresh).cache ++ [65, 66]) :=
  (qp_cache_shape QuotedPrintableDecoder.fresh [65, 66]).2 (by decide)

/-- Valid quoted-printable streams: literal printable bytes other than the
equals sign, hex escapes, soft line breaks and hard line breaks. -/
inductive ValidQP : List Nat → Prop
  | nil : ValidQP []
  | lit {b : Nat} {t : List Nat} : 32 ≤ b → b ≤ 126 → b ≠ 61 → ValidQP t →
      ValidQP (b :: t)
  | escape {h1 h2 : Nat} {t : List Nat} : isHexDig h1 = true → isHexDig h2 = true →
      ValidQP t → ValidQP (61 :: h1 :: h2 :: t)
  | softBreak {t : List Nat} : ValidQP t → ValidQP (61 :: 13 :: 10 :: t)
  | hardBreak {t : List Nat} : ValidQP t → ValidQP (13 :: 10 :: t)

/-- C1 fails on the quoted-printable decoder: the valid stream `b"=41=42"`
(which decodes to `b"AB"`) forwards `b"=41B"` when split as `write(b"=41=")`
then `write(b"42")` followed by `finalize`, but `b"AB"` when passed in a
single `write` call.  The two-byte-tail heuristic cuts the completed escape
`b"=41"` in the middle, so the bytes `b"=4"` are decoded separately. -/
theorem qp_chunk_split_changes_sink_bytes :
    ValidQP [61, 52, 49, 61, 52, 50] ∧
    List.flatten [[61, 52, 49, 61], [52, 50]] = [61, 52, 49, 61, 52, 50] ∧
    (qpRun [[61, 52, 49, 61], [52, 50]]).underlying.flatten = [61, 52, 49, 66] ∧
    (qpRun [[61, 52, 49, 61, 52, 50]]).underlying.flatten = [65, 66] ∧
    ([61, 52, 49, 66] : List Nat) ≠ [65, 66] :=
  ⟨.escape (by decide) (by decide) (.escape (by decide) (by decide) .nil),
   rfl, rfl, rfl, by decide⟩

/-- C2 counterexample: the call `write(b"Zm9v!!!!")` on a fresh decoder has
byte 33 (an invalid character, outside the alphabet and not the pad) inside
its four-byte-aligned decodable part, yet it does not fail: `b64decode`
discards the invalid characters and the call succeeds, forwarding `b"foo"`. -/
theorem base64_invalid_char_no_error_cex :
    33 ∈ b64Val Base64Decoder.fresh [90, 109, 57, 118, 33, 33, 33, 33] ∧
    b64table 33 = none ∧ (33 : Nat) ≠ 61 ∧
    Base64Decoder.write Base64Decoder.fresh [90, 109, 57, 118, 33, 33, 33, 33]
      = .ok (⟨[], [[102, 111, 111]]⟩, 8) :=
  ⟨by decide, rfl, by decide, rfl⟩

/-- Cache length after a sequence of successful writes is the total input
length modulo four (given the invariant bound on the starting cache). -/
theorem b64writeAll_cache_length (cs : List (List Nat)) :
    ∀ (st0 st : Base64Decoder), st0.cache.length ≤ 3 → b64writeAll st0 cs = .ok st →
      st.cache.length = (st0.cache.length + cs.flatten.length) % 4 := by
  induction cs with
  | nil =>
    intro st0 st h0 h
    simp only [b64writeAll, Except.ok.injEq] at h
    subst h
    simp
    omega
  | cons c cs ih =>
    intro st0 st h0 h
    simp only [b64writeAll] at h
    cases hw : Base64Decoder.write st0 c with
    | error e => rw [hw] at h; simp at h
    | ok p =>
      obtain ⟨st1, n⟩ := p
      rw [hw] at h
      have hc := (b64write_ok st0 st1 c n hw).2.2
      have hrec := ih st1 st (by omega) h
      simp only [List.flatten_cons, List.length_append] at *
      omega

/-- C5: after a run of successful writes on a fresh decoder, `finalize` raises
`DecodeError` exactly when the cache is nonempty, the cache is empty exactly
when the total written length is a multiple of four, and on an empty cache
`finalize` succeeds, forwarding `finalize()` to the sink exactly when the sink
supports it. -/
theorem base64_finalize_strictness (cs : List (List Nat)) (st : Base64Decoder)
    (hf : Bool) (h : b64writeAll Base64Decoder.fresh cs = .ok st) :
    (Base64Decoder.finalize st hf = none ↔ st.cache ≠ []) ∧
    (st.cache = [] ↔ cs.flatten.length % 4 = 0) ∧
    (cs.flatten.length % 4 = 0 → Base64Decoder.finalize st hf = some hf) := by
  have hlen := b64writeAll_cache_length cs Base64Decoder.fresh st (by simp [Base64Decoder.fresh]) h
  simp only [Base64Decoder.fresh, List.length_nil, Nat.zero_add] at hlen
  refine ⟨?_, ?_, ?_⟩
  · by_cases hc : st.cache = []
    · simp [Base64Decoder.finalize, hc]
    · simp [Base64Decoder.finalize, List.length_pos.mpr hc, hc]
  · rw [← List.length_eq_zero]
    omega
  · intro hz
    have h0 : st.cache.length = 0 := by omega
    simp [Base64Decoder.finalize, h0]

/-- Witness for finalize strictness: after writing the three bytes `b"Zm9"`,
`finalize` raises. -/
theorem base64_finalize_strictness_witness :
    Base64Decoder.finalize ⟨[90, 109, 57], []⟩ true = none :=
  (base64_finalize_strictness [[90, 109, 57]] ⟨[90, 109, 57], []⟩ true rfl).1.mpr
    (by decide)

/-- Number of Base64-alphabet (data) characters in a byte string. -/
def countData : List Nat → Nat
  | [] => 0
  | c :: rest => (if (b64table c).isSome then 1 else 0) + countData rest

/-- On pad-free input the base64 loop fails exactly when the data characters
present (invalid bytes being discarded) do not form complete quads. -/
theorem a2b_loop_nopad (l : List Nat) : ∀ (q lc p : Nat), 61 ∉ l → q < 4 →
    (a2b_base64_loop l q lc p = none ↔ (q + countData l) % 4 ≠ 0) := by
  induction l with
  | nil =>
    intro q lc p _ hq
    rcases Nat.eq_zero_or_pos q with h0 | h0
    · subst h0
      simp [a2b_base64_loop, countData]
    · have hne : ¬ q = 0 := by omega
      simp only [a2b_base64_loop, countData, if_neg hne, Nat.add_zero]
      constructor
      · intro _; omega
      · intro _; trivial
  | cons c rest ih =>
    intro q lc p hmem hq
    have hc : ¬ c = 61 := fun h => hmem (by simp [h])
    have hmem' : 61 ∉ rest := fun h => hmem (List.mem_cons_of_mem c h)
    simp only [a2b_base64_loop, if_neg hc, countData]
    cases ht : b64table c with
    | none =>
      simp only [ht, Option.isSome_none, Bool.false_eq_true, if_false, Nat.zero_add]
      exact ih q lc p hmem' hq
    | some v =>
      simp only [ht, Option.isSome_some, if_true]
      interval_cases q
      · rw [ih 1 v 0 hmem' (by omega)]
        omega
      · rw [Option.map_eq_none', ih 2 (v % 16) 0 hmem' (by omega)]
        omega
      · rw [Option.map_eq_none', ih 3 (v % 4) 0 hmem' (by omega)]
        omega
      · rw [Option.map_eq_none', ih 0 0 0 hmem' (by omega)]
        omega

/-- C2 amended: invalid characters in the decodable part do not by themselves
cause a failure (they are discarded, see the counterexample); but when the
decodable part contains no pad byte and its count of alphabet characters is
not a multiple of four (which forces at least one invalid character to be
present, the part itself having length a multiple of four), `write` raises
`DecodeError`, leaving the decoder untouched. -/
theorem base64_write_padfree_misaligned_fails (self : Base64Decoder) (input : List Nat)
    (hpad : 61 ∉ b64Val self input)
    (hcnt : countData (b64Val self input) % 4 ≠ 0) :
    Base64Decoder.write self input = .error self := by
  rw [b64write_eq]
  rw [show b64Val self input
      = List.take ((self.cache ++ input).length / 4 * 4) (self.cache ++ input) by
        simp [b64Val, b64Data, cacheAppend_eq]] at hpad hcnt
  set val := List.take ((self.cache ++ input).length / 4 * 4) (self.cache ++ input) with hv
  have hnone : b64decode val = none := by
    unfold b64decode
    rw [a2b_loop_nopad val 0 0 0 hpad (by omega)]
    simpa using hcnt
  have hne : 0 < val.length := by
    rcases hval : val with _ | ⟨a, t⟩
    · rw [hval] at hcnt
      simp [countData] at hcnt
    · simp
  rw [if_pos hne, hnone]
  rfl

/-- Witness: the spec's own example `write(b"Zm9vYmF!")` satisfies the amended
hypotheses (no pad byte, seven alphabet characters) and raises. -/
theorem base64_write_padfree_misaligned_fails_witness :
    Base64Decoder.write Base64Decoder.fresh [90, 109, 57, 118, 89, 109, 70, 33]
      = .error Base64Decoder.fresh :=
  base64_write_padfree_misaligned_fails Base64Decoder.fresh
    [90, 109, 57, 118, 89, 109, 70, 33] (by decide) (by decide)

/-- Standard Base64 alphabet character for a six-bit value. -/
def b64char (i : Nat) : Nat :=
  if i ≤ 25 then 65 + i
  else if i ≤ 51 then 97 + (i - 26)
  else if i ≤ 61 then 48 + (i - 52)
  else if i = 62 then 43
  else 47

/-- Modelled from the spec: `base64_encode`, the standard RFC 4648 Base64
encoding with padding, which the round-trip property feeds into the decoder
(the repository itself only decodes). -/
def b64encode : List Nat → List Nat
  | b1 :: b2 :: b3 :: rest =>
      b64char (b1 / 4) :: b64char (b1 % 4 * 16 + b2 / 16) ::
        b64char (b2 % 16 * 4 + b3 / 64) :: b64char (b3 % 64) :: b64encode rest
  | [b1, b2] =>
      [b64char (b1 / 4), b64char (b1 % 4 * 16 + b2 / 16), b64char (b2 % 16 * 4), 61]
  | [b1] => [b64char (b1 / 4), b64char (b1 % 4 * 16), 61, 61]
  | [] => []

theorem b64table_b64char : ∀ i, i < 64 → b64table (b64char i) = some i := by decide

theorem b64table_ne_pad {c v : Nat} (h : b64table c = some v) : ¬ c = 61 := by
  intro hc
  rw [hc, show b64table 61 = none from by decide] at h
  exact Option.noConfusion h

/-- Processing one alphabet quad from a quad boundary emits three bytes and
continues at a quad boundary; the incoming leftchar and pad count are
irrelevant there. -/
theorem a2b_loop_quad {c1 c2 c3 c4 v1 v2 v3 v4 : Nat} (t : List Nat)
    (h1 : b64table c1 = some v1) (h2 : b64table c2 = some v2)
    (h3 : b64table c3 = some v3) (h4 : b64table c4 = some v4) (lc p : Nat) :
    a2b_base64_loop (c1 :: c2 :: c3 :: c4 :: t) 0 lc p =
      (a2b_base64_loop t 0 0 0).map
        (fun d => (v1 * 4 + v2 / 16) :: (v2 % 16 * 16 + v3 / 4) ::
          (v3 % 4 * 64 + v4) :: d) := by
  simp [a2b_base64_loop, if_neg (b64table_ne_pad h1), h1,
    if_neg (b64table_ne_pad h2), h2, if_neg (b64table_ne_pad h3), h3,
    if_neg (b64table_ne_pad h4), h4, Option.map_map]
  rfl

/-- A final group with one pad byte decodes to two bytes. -/
theorem a2b_loop_pad1 {c1 c2 c3 v1 v2 v3 : Nat}
    (h1 : b64table c1 = some v1) (h2 : b64table c2 = some v2)
    (h3 : b64table c3 = some v3) (lc p : Nat) :
    a2b_base64_loop [c1, c2, c3, 61] 0 lc p =
      some [v1 * 4 + v2 / 16, v2 % 16 * 16 + v3 / 4] := by
  simp [a2b_base64_loop, if_neg (b64table_ne_pad h1), h1,
    if_neg (b64table_ne_pad h2), h2, if_neg (b64table_ne_pad h3), h3]

/-- A final group with two pad bytes decodes to one byte. -/
theorem a2b_loop_pad2 {c1 c2 v1 v2 : Nat}
    (h1 : b64table c1 = some v1) (h2 : b64table c2 = some v2) (lc p : Nat) :
    a2b_base64_loop [c1, c2, 61, 61] 0 lc p = some [v1 * 4 + v2 / 16] := by
  simp [a2b_base64_loop, if_neg (b64table_ne_pad h1), h1,
    if_neg (b64table_ne_pad h2), h2]

theorem b64decode_nil : b64decode [] = some [] := rfl

theorem b64decode_quad {c1 c2 c3 c4 v1 v2 v3 v4 : Nat} (t : List Nat)
    (h1 : b64table c1 = some v1) (h2 : b64table c2 = some v2)
    (h3 : b64table c3 = some v3) (h4 : b64table c4 = some v4) :
    b64decode (c1 :: c2 :: c3 :: c4 :: t) =
      (b64decode t).map (fun d => (v1 * 4 + v2 / 16) :: (v2 % 16 * 16 + v3 / 4) ::
        (v3 % 4 * 64 + v4) :: d) :=
  a2b_loop_quad t h1 h2 h3 h4 0 0

theorem b64decode_pad1 {c1 c2 c3 v1 v2 v3 : Nat}
    (h1 : b64table c1 = some v1) (h2 : b64table c2 = some v2)
    (h3 : b64table c3 = some v3) :
    b64decode [c1, c2, c3, 61] = some [v1 * 4 + v2 / 16, v2 % 16 * 16 + v3 / 4] :=
  a2b_loop_pad1 h1 h2 h3 0 0

theorem b64decode_pad2 {c1 c2 v1 v2 : Nat}
    (h1 : b64table c1 = some v1) (h2 : b64table c2 = some v2) :
    b64decode [c1, c2, 61, 61] = some [v1 * 4 + v2 / 16] :=
  a2b_loop_pad2 h1 h2 0 0

/-- Valid Base64 streams: zero or more alphabet quads, optionally ended by a
single padded final group (pad bytes occur nowhere else). -/
inductive ValidB64 : List Nat → Prop
  | nil : ValidB64 []
  | pad1 {c1 c2 c3 : Nat} : (b64table c1).isSome = true → (b64table c2).isSome = true →
      (b64table c3).isSome = true → ValidB64 [c1, c2, c3, 61]
  | pad2 {c1 c2 : Nat} : (b64table c1).isSome = true → (b64table c2).isSome = true →
      ValidB64 [c1, c2, 61, 61]
  | quad {c1 c2 c3 c4 : Nat} {t : List Nat} : (b64table c1).isSome = true →
      (b64table c2).isSome = true → (b64table c3).isSome = true →
      (b64table c4).isSome = true → ValidB64 t → ValidB64 (c1 :: c2 :: c3 :: c4 :: t)

theorem validB64_length {S : List Nat} (h : ValidB64 S) : S.length % 4 = 0 := by
  induction h with
  | nil => rfl
  | pad1 _ _ _ => simp
  | pad2 _ _ => simp
  | quad _ _ _ _ _ ih =>
    simp only [List.length_cons]
    omega

theorem validB64_decode {S : List Nat} (h : ValidB64 S) : ∃ d, b64decode S = some d := by
  induction h with
  | nil => exact ⟨[], rfl⟩
  | pad1 h1 h2 h3 =>
    obtain ⟨v1, hv1⟩ := Option.isSome_iff_exists.mp h1
    obtain ⟨v2, hv2⟩ := Option.isSome_iff_exists.mp h2
    obtain ⟨v3, hv3⟩ := Option.isSome_iff_exists.mp h3
    exact ⟨_, b64decode_pad1 hv1 hv2 hv3⟩
  | pad2 h1 h2 =>
    obtain ⟨v1, hv1⟩ := Option.isSome_iff_exists.mp h1
    obtain ⟨v2, hv2⟩ := Option.isSome_iff_exists.mp h2
    exact ⟨_, b64decode_pad2 hv1 hv2⟩
  | quad h1 h2 h3 h4 _ ih =>
    obtain ⟨v1, hv1⟩ := Option.isSome_iff_exists.mp h1
    obtain ⟨v2, hv2⟩ := Option.isSome_iff_exists.mp h2
    obtain ⟨v3, hv3⟩ := Option.isSome_iff_exists.mp h3
    obtain ⟨v4, hv4⟩ := Option.isSome_iff_exists.mp h4
    obtain ⟨d, hd⟩ := ih
    exact ⟨_, by rw [b64decode_quad _ hv1 hv2 hv3 hv4, hd]; rfl⟩

/-- Any split of a valid stream at a quad boundary splits its decoding: both
halves decode successfully, the tail is again a valid stream, and the decoded
bytes concatenate. -/
theorem validB64_split (k : Nat) : ∀ (S : List Nat), ValidB64 S →
    ValidB64 (List.drop (4 * k) S) ∧
    ∃ d1 d2, b64decode (List.take (4 * k) S) = some d1 ∧
      b64decode (List.drop (4 * k) S) = some d2 ∧
      b64decode S = some (d1 ++ d2) := by
  induction k with
  | zero =>
    intro S h
    obtain ⟨d, hd⟩ := validB64_decode h
    refine ⟨by simpa using h, [], d, ?_, ?_, ?_⟩
    · rw [Nat.mul_zero, List.take_zero]
      exact b64decode_nil
    · rw [Nat.mul_zero, List.drop_zero]
      exact hd
    · simpa using hd
  | succ k ih =>
    intro S h
    have e4 : 4 * (k + 1) = 4 * k + 1 + 1 + 1 + 1 := by ring
    rw [e4]
    cases h with
    | nil =>
      exact ⟨by simpa using ValidB64.nil, [], [], by simp [b64decode_nil],
        by simp [b64decode_nil], by simp [b64decode_nil]⟩
    | pad1 h1 h2 h3 =>
      obtain ⟨v1, hv1⟩ := Option.isSome_iff_exists.mp h1
      obtain ⟨v2, hv2⟩ := Option.isSome_iff_exists.mp h2
      obtain ⟨v3, hv3⟩ := Option.isSome_iff_exists.mp h3
      refine ⟨?_, [v1 * 4 + v2 / 16, v2 % 16 * 16 + v3 / 4], [], ?_, ?_, ?_⟩
      · simp only [List.drop_succ_cons, List.drop_nil]
        exact .nil
      · simp only [List.take_succ_cons, List.take_nil]
        exact b64decode_pad1 hv1 hv2 hv3
      · simp only [List.drop_succ_cons, List.drop_nil]
        exact b64decode_nil
      · rw [List.append_nil]
        exact b64decode_pad1 hv1 hv2 hv3
    | pad2 h1 h2 =>
      obtain ⟨v1, hv1⟩ := Option.isSome_iff_exists.mp h1
      obtain ⟨v2, hv2⟩ := Option.isSome_iff_exists.mp h2
      refine ⟨?_, [v1 * 4 + v2 / 16], [], ?_, ?_, ?_⟩
      · simp only [List.drop_succ_cons, List.drop_nil]
        exact .nil
      · simp only [List.take_succ_cons, List.take_nil]
        exact b64decode_pad2 hv1 hv2
      · simp only [List.drop_succ_cons, List.drop_nil]
        exact b64decode_nil
      · rw [List.append_nil]
        exact b64decode_pad2 hv1 hv2
    | quad h1 h2 h3 h4 ht =>
      obtain ⟨v1, hv1⟩ := Option.isSome_iff_exists.mp h1
      obtain ⟨v2, hv2⟩ := Option.isSome_iff_exists.mp h2
      obtain ⟨v3, hv3⟩ := Option.isSome_iff_exists.mp h3
      obtain ⟨v4, hv4⟩ := Option.isSome_iff_exists.mp h4
      obtain ⟨hvd, d1, d2, hq1, hq2, hq3⟩ := ih _ ht
      refine ⟨?_, (v1 * 4 + v2 / 16) :: (v2 % 16 * 16 + v3 / 4) ::
        (v3 % 4 * 64 + v4) :: d1, d2, ?_, ?_, ?_⟩
      · simp only [List.drop_succ_cons]
        exact hvd
      · simp only [List.take_succ_cons]
        rw [b64decode_quad _ hv1 hv2 hv3 hv4, hq1]
        rfl
      · simp only [List.drop_succ_cons]
        exact hq2
      · rw [b64decode_quad _ hv1 hv2 hv3 hv4, hq3]
        simp

/-- A `write` call whose aligned decodable part decodes successfully returns
the combined length, caches the unaligned tail, and appends exactly the
decoded bytes to the sink stream. -/
theorem b64write_ok_of_decode (st : Base64Decoder) (c : List Nat) (d1 : List Nat)
    (hd : b64decode (List.take ((st.cache ++ c).length / 4 * 4) (st.cache ++ c)) = some d1) :
    ∃ st', Base64Decoder.write st c = .ok (st', (st.cache ++ c).length) ∧
      st'.cache = List.drop ((st.cache ++ c).length / 4 * 4) (st.cache ++ c) ∧
      st'.underlying.flatten = st.underlying.flatten ++ d1 := by
  rw [b64write_eq]
  by_cases hv : 0 < (List.take ((st.cache ++ c).length / 4 * 4) (st.cache ++ c)).length
  · rw [if_pos hv, hd]
    refine ⟨_, rfl, rfl, ?_⟩
    simp
  · rw [if_neg hv]
    refine ⟨_, rfl, rfl, ?_⟩
    have hnil : List.take ((st.cache ++ c).length / 4 * 4) (st.cache ++ c) = [] := by
      rcases hh : List.take ((st.cache ++ c).length / 4 * 4) (st.cache ++ c) with _ | ⟨a, t⟩
      · rfl
      · rw [hh] at hv
        simp at hv
    rw [hnil] at hd
    have hd2 : (some ([] : List Nat)) = some d1 := hd
    injection hd2 with hd3
    simp [← hd3]

/-- Running any chunk sequence whose remaining stream (cache-prefixed) is a
valid Base64 stream succeeds, ends with an empty cache, and appends exactly
the stream's decoding to the sink. -/
theorem b64writeAll_valid (cs : List (List Nat)) : ∀ (st : Base64Decoder),
    st.cache.length ≤ 3 → ValidB64 (st.cache ++ cs.flatten) →
    ∃ st', b64writeAll st cs = .ok st' ∧ st'.cache = [] ∧
      ∀ d, b64decode (st.cache ++ cs.flatten) = some d →
        st'.underlying.flatten = st.underlying.flatten ++ d := by
  induction cs with
  | nil =>
    intro st hle hval
    simp only [List.flatten_nil, List.append_nil] at hval ⊢
    have hnil : st.cache = [] := by
      have hmod : st.cache.length % 4 = 0 := validB64_length hval
      have h0 : st.cache.length = 0 := by omega
      exact List.length_eq_zero.mp h0
    refine ⟨st, rfl, hnil, ?_⟩
    intro d hd
    rw [hnil] at hd
    have hd2 : (some ([] : List Nat)) = some d := hd
    injection hd2 with hd3
    simp [← hd3]
  | cons c cs ih =>
    intro st hle hval
    have hR : st.cache ++ (c :: cs).flatten = (st.cache ++ c) ++ cs.flatten := by
      rw [List.flatten_cons, List.append_assoc]
    rw [hR] at hval
    have hk4 : (st.cache ++ c).length / 4 * 4 ≤ (st.cache ++ c).length :=
      Nat.div_mul_le_self _ _
    obtain ⟨hvd, d1, d2, hq1, hq2, hq3⟩ :=
      validB64_split ((st.cache ++ c).length / 4) ((st.cache ++ c) ++ cs.flatten) hval
    have hmul : 4 * ((st.cache ++ c).length / 4) = (st.cache ++ c).length / 4 * 4 :=
      Nat.mul_comm _ _
    rw [hmul, take_append_le _ _ _ hk4] at hq1
    rw [hmul, drop_append_le _ _ _ hk4] at hq2 hvd
    obtain ⟨st1, hw, hcache1, hund1⟩ := b64write_ok_of_decode st c d1 hq1
    have hle1 : st1.cache.length ≤ 3 := by
      rw [hcache1]
      simp only [List.length_drop]
      omega
    have hval1 : ValidB64 (st1.cache ++ cs.flatten) := by
      rw [hcache1]
      exact hvd
    obtain ⟨st', hrun, hcache', hout⟩ := ih st1 hle1 hval1
    refine ⟨st', ?_, hcache', ?_⟩
    · simp only [b64writeAll]
      rw [hw]
      exact hrun
    · intro d hd
      rw [hR, hq3] at hd
      injection hd with hdd
      have h2 := hout d2 (by rw [hcache1]; exact hq2)
      rw [h2, hund1, ← hdd, List.append_assoc]

/-- The standard encoding of any byte string is a valid Base64 stream. -/
theorem b64encode_valid : ∀ (B : List Nat), (∀ b ∈ B, b < 256) → ValidB64 (b64encode B)
  | [], _ => by
    rw [b64encode]
    exact .nil
  | [b1], h => by
    have hb1 : b1 < 256 := h b1 (by simp)
    rw [b64encode]
    exact .pad2 (by rw [b64table_b64char _ (by omega)]; rfl)
      (by rw [b64table_b64char _ (by omega)]; rfl)
  | [b1, b2], h => by
    have hb1 : b1 < 256 := h b1 (by simp)
    have hb2 : b2 < 256 := h b2 (by simp)
    rw [b64encode]
    exact .pad1 (by rw [b64table_b64char _ (by omega)]; rfl)
      (by rw [b64table_b64char _ (by omega)]; rfl)
      (by rw [b64table_b64char _ (by omega)]; rfl)
  | b1 :: b2 :: b3 :: rest, h => by
    have hb1 : b1 < 256 := h b1 (by simp)
    have hb2 : b2 < 256 := h b2 (by simp)
    have hb3 : b3 < 256 := h b3 (by simp)
    have hrest : ∀ b ∈ rest, b < 256 := fun b hb => h b (by simp [hb])
    rw [b64encode]
    exact .quad (by rw [b64table_b64char _ (by omega)]; rfl)
      (by rw [b64table_b64char _ (by omega)]; rfl)
      (by rw [b64table_b64char _ (by omega)]; rfl)
      (by rw [b64table_b64char _ (by omega)]; rfl)
      (b64encode_valid rest hrest)

/-- Decoding inverts the standard encoding. -/
theorem b64decode_b64encode : ∀ (B : List Nat), (∀ b ∈ B, b < 256) →
    b64decode (b64encode B) = some B
  | [], _ => rfl
  | [b1], h => by
    have hb1 : b1 < 256 := h b1 (by simp)
    rw [b64encode, b64decode_pad2 (b64table_b64char _ (by omega))
      (b64table_b64char _ (by omega))]
    have e1 : b1 / 4 * 4 + b1 % 4 * 16 / 16 = b1 := by omega
    rw [e1]
  | [b1, b2], h => by
    have hb1 : b1 < 256 := h b1 (by simp)
    have hb2 : b2 < 256 := h b2 (by simp)
    rw [b64encode, b64decode_pad1 (b64table_b64char _ (by omega))
      (b64table_b64char _ (by omega)) (b64table_b64char _ (by omega))]
    have e1 : b1 / 4 * 4 + (b1 % 4 * 16 + b2 / 16) / 16 = b1 := by omega
    have e2 : (b1 % 4 * 16 + b2 / 16) % 16 * 16 + b2 % 16 * 4 / 4 = b2 := by omega
    rw [e1, e2]
  | b1 :: b2 :: b3 :: rest, h => by
    have hb1 : b1 < 256 := h b1 (by simp)
    have hb2 : b2 < 256 := h b2 (by simp)
    have hb3 : b3 < 256 := h b3 (by simp)
    have hrest : ∀ b ∈ rest, b < 256 := fun b hb => h b (by simp [hb])
    rw [b64encode, b64decode_quad _ (b64table_b64char _ (by omega))
      (b64table_b64char _ (by omega)) (b64table_b64char _ (by omega))
      (b64table_b64char _ (by omega)),
      b64decode_b64encode rest hrest]
    simp only [Option.map_some']
    have e1 : b1 / 4 * 4 + (b1 % 4 * 16 + b2 / 16) / 16 = b1 := by omega
    have e2 : (b1 % 4 * 16 + b2 / 16) % 16 * 16 + (b2 % 16 * 4 + b3 / 64) / 4 = b2 := by omega
    have e3 : (b2 % 16 * 4 + b3 / 64) % 4 * 64 + b3 % 64 = b3 := by omega
    rw [e1, e2, e3]

/-- C3: feeding the standard Base64 encoding of any byte string to a fresh
decoder, split into write calls in any way whatsoever (one byte at a time,
all at once, or anything else), succeeds; `finalize` then succeeds (forwarding
to the sink when supported), and the bytes forwarded to the sink, concatenated
in order, are exactly the original byte string. -/
theorem base64_roundtrip (B : List Nat) (cs : List (List Nat))
    (hB : ∀ b ∈ B, b < 256) (hcs : cs.flatten = b64encode B) :
    ∃ st, b64writeAll Base64Decoder.fresh cs = .ok st ∧
      st.underlying.flatten = B ∧
      ∀ hf : Bool, Base64Decoder.finalize st hf = some hf := by
  obtain ⟨st, hrun, hcache, hout⟩ := b64writeAll_valid cs Base64Decoder.fresh
    (by simp [Base64Decoder.fresh])
    (by simp only [Base64Decoder.fresh, List.nil_append, hcs]
        exact b64encode_valid B hB)
  refine ⟨st, hrun, ?_, ?_⟩
  · have hfull := hout B
      (by simp only [Base64Decoder.fresh, List.nil_append, hcs]
          exact b64decode_b64encode B hB)
    simpa [Base64Decoder.fresh] using hfull
  · intro hf
    simp [Base64Decoder.finalize, hcache]

/-- Witness for the round trip: `b"foo"` encodes to `b"Zm9v"`, fed in two
two-byte chunks. -/
theorem base64_roundtrip_witness :
    ∃ st, b64writeAll Base64Decoder.fresh [[90, 109], [57, 118]] = .ok st ∧
      st.underlying.flatten = [102, 111, 111] ∧
      ∀ hf : Bool, Base64Decoder.finalize st hf = some hf :=
  base64_roundtrip [102, 111, 111] [[90, 109], [57, 118]] (by decide) (by decide)
